import Mathlib

/-!
# Verification of the Contextual Retrieval Engine (`AISearchEngine`, src/server.js)

Shallow embedding of the retrieval engine of the chatbot backend.  JavaScript
strings are modelled by Lean `String` (operating on their character lists),
JS numbers used as similarity scores / embedding coordinates by `ℚ`, and the
real-valued cosine-similarity arithmetic (which uses `Math.sqrt`) by `ℝ`.
`null`/string returns are modelled by `Option String`; the external embedding
provider (`getEmbedding`, an OpenAI call) is modelled as an explicit function
parameter `embed : String → List ℚ`, and the similarity scoring used inside
ranking as a parameter `sim` (instantiable with any score function).  JS
`Array.prototype.sort` (stable) is modelled by `List.mergeSort`.
Out-of-domain JS accesses (`undefined` interpolation) are modelled with
`Option` and the string "undefined", exactly as JS template literals render
`undefined`.
-/

namespace ChatbotRetrieval

/-! ## JS string primitives, modelled on character lists -/

/-- Model of JS `String.prototype.includes` on character lists: `pat` occurs
as a contiguous substring of the haystack. -/
def strContainsChars (pat : List Char) : List Char → Bool
  | [] => pat.isEmpty
  | c :: rest => pat.isPrefixOf (c :: rest) || strContainsChars pat rest

/-- Model of JS `s.includes(pat)`. -/
def jsIncludes (s pat : String) : Bool :=
  strContainsChars pat.data s.data

/-- Model of JS `s.toLowerCase()` (basic-latin letters, as used by the code). -/
def jsToLower (s : String) : String :=
  String.mk (s.data.map Char.toLower)

/-- Model of JS `s.startsWith(pat)`. -/
def jsStartsWith (s pat : String) : Bool :=
  pat.data.isPrefixOf s.data

/-- Split a character list at every occurrence of `c`, keeping empty pieces:
the behaviour of JS `s.split(' ')` with a single-character separator. -/
def splitOnChar (c : Char) : List Char → List (List Char)
  | [] => [[]]
  | x :: xs =>
    let rest := splitOnChar c xs
    if x = c then [] :: rest
    else
      match rest with
      | [] => [[x]]
      | r :: rs => (x :: r) :: rs

/-- Model of JS `s.split(' ')`. -/
def jsSplitSpace (s : String) : List String :=
  (splitOnChar ' ' s.data).map String.mk

/-- Model of JS `Array.prototype.join(sep)`. -/
def joinSep (sep : String) : List String → String
  | [] => ""
  | [x] => x
  | x :: y :: xs => x ++ sep ++ joinSep sep (y :: xs)

/-! ## Data model (§3 of the spec, `AISearchEngine` fields) -/

/-- One row of `metadata.csv` (columns `name, date, excerpt_title, tags`). -/
structure PersonRecord where
  name : String
  date : String
  excerpt_title : String
  tags : String
deriving DecidableEq, Inhabited

/-- Per-chunk provenance from `embeddings.json`'s `metadata` array
(`{source, tokens}` as produced by the ingestion script; `page` is optional
and absent in the produced artifact). -/
structure ChunkMeta where
  source : String
  page : Option Nat
  tokens : Nat
deriving DecidableEq, Inhabited

/-- One entry of the `similarities` array built by `findSimilarContent`:
`{score, text: this.texts[idx], metadata: this.chunkMetadata[idx]}`.
`text`/`metadata` are `Option`s because a parallel-array index access past
the end of `texts`/`chunkMetadata` yields `undefined` in JS. -/
structure SimilarityItem where
  score : ℚ
  text : Option String
  metadata : Option ChunkMeta
deriving DecidableEq, Inhabited

/-- The engine state after `initialize`: parallel arrays `embeddings`,
`texts`, `chunkMetadata`, and the insertion-ordered `metadata` registry
(a JS `Map` keyed by stringified `row_index + 1`). -/
structure AISearchEngine where
  embeddings : List (List ℚ)
  texts : List String
  metadata : List (String × PersonRecord)
  chunkMetadata : List ChunkMeta
deriving DecidableEq, Inhabited

/-- A conversation turn `{role, content}`. -/
structure ConversationTurn where
  role : String
  content : String
deriving DecidableEq, Inhabited

/-! ## Corpus loading (`initialize`, src/server.js:276-309)

File reads and parses are fallible external steps: `none` models an
unreadable or malformed `embeddings.json` / `metadata.csv` (in which case
the JS code's `catch` logs and rethrows).  On success the code assigns the
three parallel arrays with no validation whatsoever and keys each CSV record
by `(index + 1).toString()`. -/

/-- Parsed contents of `embeddings.json`. -/
structure CorpusArtifact where
  embeddings : List (List ℚ)
  texts : List String
  metadata : List ChunkMeta
deriving DecidableEq, Inhabited

/-- Model of the engine method named initialize in the source: `none` inputs model an unreadable or
malformed source (readFileSync/JSON.parse/csv.parse throwing), in which case
the error is rethrown; otherwise the fields are assigned directly. -/
def initializeEngine (artifact : Option CorpusArtifact)
    (records : Option (List PersonRecord)) : Except String AISearchEngine :=
  match artifact with
  | none => .error "Failed to load data"
  | some data =>
    match records with
    | none => .error "Failed to load data"
    | some recs =>
      .ok { embeddings := data.embeddings
            texts := data.texts
            chunkMetadata := data.metadata
            metadata := recs.enum.map (fun p => (toString (p.1 + 1), p.2)) }

/-! ## Entity resolver (`findAllNamesInQuestion`, src/server.js:311-332) -/

/-- Model of `findAllNamesInQuestion`: for each registry record (in insertion
order), match if the lowercased full name occurs in the lowercased question,
or else if some whitespace token of the name longer than 2 characters occurs
in it (`break` after the first token hit, i.e. each record at most once). -/
def findAllNamesInQuestion (metadata : List (String × PersonRecord))
    (question : String) : List (String × PersonRecord) :=
  let normalizedQuestion := jsToLower question
  metadata.filter fun p =>
    let normalizedName := jsToLower p.2.name
    jsIncludes normalizedQuestion normalizedName ||
      (jsSplitSpace normalizedName).any fun part =>
        decide (2 < part.length) && jsIncludes normalizedQuestion (jsToLower part)

/-! ## Similarity ranker (`findSimilarContent`, src/server.js:431-448) -/

/-- The `similarities` array: one item per embedding, with the text and chunk
metadata fetched from the parallel arrays at the same index. -/
def candidateItems (sim : List ℚ → List ℚ → ℚ) (e : AISearchEngine)
    (queryEmbedding : List ℚ) : List SimilarityItem :=
  e.embeddings.enum.map fun p =>
    { score := sim queryEmbedding p.2
      text := e.texts[p.1]?
      metadata := e.chunkMetadata[p.1]? }

/-- The JS comparator `(a, b) => b.score - a.score`: descending by score. -/
def descByScore (a b : SimilarityItem) : Bool :=
  decide (b.score ≤ a.score)

/-- The filter applied when a `sourceName` is given:
`item.metadata && item.metadata.source === sourceName`. -/
def matchesSource (sourceName : String) (item : SimilarityItem) : Bool :=
  match item.metadata with
  | some m => m.source == sourceName
  | none => false

/-- The `results` array of the source: all scored chunks, or only those whose
`metadata.source` equals the given document file name. -/
def restrictedCandidates (sim : List ℚ → List ℚ → ℚ) (e : AISearchEngine)
    (queryEmbedding : List ℚ) (sourceName : Option String) : List SimilarityItem :=
  let similarities := candidateItems sim e queryEmbedding
  match sourceName with
  | some name => similarities.filter (matchesSource name)
  | none => similarities

/-- Model of `findSimilarContent`: score every chunk, optionally restrict to
one source document, sort descending by score (stable), keep the top 5. -/
def findSimilarContent (sim : List ℚ → List ℚ → ℚ) (e : AISearchEngine)
    (queryEmbedding : List ℚ) (sourceName : Option String) : List SimilarityItem :=
  let results := restrictedCandidates sim e queryEmbedding sourceName
  (results.mergeSort descByScore).take 5

/-! ## Retrieval controller (`findRelevantContext`, src/server.js:334-429) -/

/-- The contextualized query: `history.slice(-4)`, then fold the recent
history in front of the question when it is short, starts with why/how
(case-insensitively) or contains no question mark. -/
def contextualQueryOf (question : String) (history : List ConversationTurn) : String :=
  let recentHistory := history.drop (history.length - 4)
  if decide (question.length < 60) ||
      jsStartsWith (jsToLower question) "why" ||
      jsStartsWith (jsToLower question) "how" ||
      !(jsIncludes question "?") then
    joinSep " " (recentHistory.map (fun m => m.content)) ++ " " ++ question
  else
    question

/-- The comparative-intent flag: the lowercased contextual query contains
"between" or "compare". -/
def isComparativeOf (contextualQuery : String) : Bool :=
  jsIncludes (jsToLower contextualQuery) "between" ||
    jsIncludes (jsToLower contextualQuery) "compare"

/-- The Branch A guard as written in the source:
`(isComparative || names.length > 1) && names.length >= 2`. -/
def branchAGuard (isComparative : Bool)
    (names : List (String × PersonRecord)) : Bool :=
  (isComparative || decide (1 < names.length)) && decide (2 ≤ names.length)

/-- `[Page <p>] <text>` for one ranked item; JS renders `undefined` for a
missing page or text. -/
def pageTag (item : SimilarityItem) : String :=
  let pageStr :=
    match item.metadata with
    | some m => match m.page with
                | some p => toString p
                | none => "undefined"
    | none => "undefined"
  "[Page " ++ pageStr ++ "] " ++ item.text.getD "undefined"

/-- The document file name `document<id>.pdf` used to restrict ranking. -/
def documentNameOf (id : String) : String :=
  "document" ++ id ++ ".pdf"

/-- One Branch A per-document context block:
`Interview <id> with <name> (<date>):` followed by the `[Page p] text` lines
of that document's ranked chunks, joined by blank lines. -/
def branchABlock (id : String) (record : PersonRecord)
    (content : List SimilarityItem) : String :=
  "Interview " ++ id ++ " with " ++ record.name ++ " (" ++ record.date ++ "):\n"
    ++ joinSep "\n\n" (content.map pageTag)

/-- Branch A body: for each matched document embed the query and rank
restricted to that document, keep the documents with non-empty results, and
join their blocks with the `---` separator.  Returned unconditionally (the
source `return`s this expression whatever `contexts` holds). -/
def branchAResult (sim : List ℚ → List ℚ → ℚ) (embed : String → List ℚ)
    (e : AISearchEngine) (contextualQuery : String)
    (names : List (String × PersonRecord)) : String :=
  let contexts := names.filterMap fun nm =>
    let documentName := documentNameOf nm.1
    let questionEmbedding := embed contextualQuery
    let similarContent := findSimilarContent sim e questionEmbedding (some documentName)
    if 0 < similarContent.length then some (nm.1, nm.2, similarContent) else none
  joinSep "\n\n---\n\n" (contexts.map fun ctx => branchABlock ctx.1 ctx.2.1 ctx.2.2)

/-- Branch B formatting: one `Interview <id> with <name> (<date>):` header
line per chunk (the header is repeated inside the map in the source). -/
def formatSingleEntity (id : String) (record : PersonRecord)
    (similarContent : List SimilarityItem) : String :=
  joinSep "\n\n" (similarContent.map fun item =>
    "Interview " ++ id ++ " with " ++ record.name ++ " (" ++ record.date ++ "):\n"
      ++ pageTag item)

/-- First-occurrence deduplication of a key list: the insertion order of the
string keys of the JS object `groupedResults`. -/
def firstKeys : List String → List String
  | [] => []
  | k :: rest => k :: firstKeys (rest.filter fun x => x ≠ k)
termination_by l => l.length
decreasing_by
  exact Nat.lt_succ_of_le (List.length_filter_le _ _)

/-- The grouping key `item.metadata.source`.  When `item.metadata` is
`undefined` the JS expression throws a TypeError; the `none` case below is a
totalizing placeholder for that throwing state, and every theorem about the
fallback branch carries a hypothesis (`item.metadata ≠ none` for all ranked
items) confining it to inputs where this case is never taken. -/
def sourceKey (item : SimilarityItem) : String :=
  match item.metadata with
  | some m => m.source
  | none => "undefined"

/-- `groupedResults` as an insertion-ordered association list: keys in order
of first appearance in the ranked list, each paired with its items in ranked
order. -/
def groupBySource (items : List SimilarityItem) :
    List (String × List SimilarityItem) :=
  (firstKeys (items.map sourceKey)).map fun k =>
    (k, items.filter fun i => sourceKey i == k)

/-- The JS comparator `(a, b) => b[1].length - a[1].length` on grouped
entries: descending by group size. -/
def descByGroupSize (a b : String × List SimilarityItem) : Bool :=
  decide (b.2.length ≤ a.2.length)

/-- The `/document(\d+)\.pdf/` capture: the first maximal digit run that
follows "document" and is followed by ".pdf"; `none` when the regex does not
match (in which case the JS code would throw on `[1]`). -/
def extractDocId : List Char → Option String
  | [] => none
  | c :: rest =>
    if "document".data.isPrefixOf (c :: rest) then
      let tail := (c :: rest).drop 8
      let ds := tail.takeWhile Char.isDigit
      if ds ≠ [] ∧ ".pdf".data.isPrefixOf (tail.drop ds.length) then
        some (String.mk ds)
      else
        extractDocId rest
    else
      extractDocId rest

/-- Registry lookup `this.metadata.get(documentId)`. -/
def registryGet (e : AISearchEngine) (documentId : String) : Option PersonRecord :=
  (e.metadata.find? fun p => p.1 == documentId).map fun p => p.2

/-- Branch C (corpus-wide fallback): rank unrestricted, group the top chunks
by source, pick the first biggest group (stable sort then `[0]`), and format
that group's chunks under its document's header; `null` when there are no
groups at all.  Two source expressions here throw a TypeError in JS:
`bestSource[0].match(/document(\d+)\.pdf/)[1]` when the regex does not match
(modelled `extractDocId = none`), and `record.name` when
`this.metadata.get(documentId)` misses (modelled `registryGet = none`).  The
`getD` fallbacks below totalize those two throwing states; theorems about
this branch assert a returned value only under hypotheses
(`extractDocId … = some _`, `registryGet … = some _`) that exclude them, so
the placeholder values are never relied upon. -/
def corpusFallback (sim : List ℚ → List ℚ → ℚ) (embed : String → List ℚ)
    (e : AISearchEngine) (contextualQuery : String) : Option String :=
  let questionEmbedding := embed contextualQuery
  let similarContent := findSimilarContent sim e questionEmbedding none
  let groupedResults := groupBySource similarContent
  if 0 < groupedResults.length then
    let bestSource := ((groupedResults.mergeSort descByGroupSize).head?).getD ("", [])
    let documentId := (extractDocId bestSource.1.data).getD "undefined"
    let record := (registryGet e documentId).getD default
    some (formatSingleEntity documentId record bestSource.2)
  else
    none

/-- Model of `findRelevantContext`: reformulate the query, resolve entities,
then Branch A (2 or more matches — returned unconditionally), Branch B
(`names[0]` exists and restricted ranking is non-empty), or Branch C
(corpus-wide fallback), with `null` (`none`) when nothing is produced. -/
def findRelevantContext (sim : List ℚ → List ℚ → ℚ) (embed : String → List ℚ)
    (e : AISearchEngine) (question : String)
    (history : List ConversationTurn) : Option String :=
  let contextualQuery := contextualQueryOf question history
  let isComparative := isComparativeOf contextualQuery
  let names := findAllNamesInQuestion e.metadata contextualQuery
  if branchAGuard isComparative names then
    some (branchAResult sim embed e contextualQuery names)
  else
    match names.head? with
    | some nm =>
      let questionEmbedding := embed contextualQuery
      let similarContent :=
        findSimilarContent sim e questionEmbedding (some (documentNameOf nm.1))
      if 0 < similarContent.length then
        some (formatSingleEntity nm.1 nm.2 similarContent)
      else
        corpusFallback sim embed e contextualQuery
    | none => corpusFallback sim embed e contextualQuery

/-! ## Cosine similarity (`cosineSimilarity`, src/server.js:450-455)

The numeric content (dot product, `Math.sqrt`, division) is modelled over
`ℝ`: `vecA.reduce((sum, a, i) => sum + a * vecB[i], 0)` is the sum of
pairwise products, and each norm is the square root of the sum of squares. -/

/-- `dotProduct` of the source, for equal-dimension vectors. -/
def dotProduct (vecA vecB : List ℝ) : ℝ :=
  (List.zipWith (fun a b => a * b) vecA vecB).sum

/-- `normA`/`normB` of the source: `Math.sqrt(v.reduce((s, x) => s + x*x, 0))`. -/
noncomputable def vecNorm (v : List ℝ) : ℝ :=
  Real.sqrt ((v.map fun x => x * x).sum)

/-- Model of `cosineSimilarity`: `dotProduct / (normA * normB)` (the division
is unguarded in the source; `ℝ` division totalizes it). -/
noncomputable def cosineSimilarity (vecA vecB : List ℝ) : ℝ :=
  dotProduct vecA vecB / (vecNorm vecA * vecNorm vecB)

/-! ## Concrete instances (used to instantiate the theorems) -/

/-- The all-zero similarity oracle. -/
def simZero : List ℚ → List ℚ → ℚ := fun _ _ => 0

/-- An embedding oracle returning the empty vector. -/
def embedZero : String → List ℚ := fun _ => []

/-- A two-person registry. -/
def registryA : List (String × PersonRecord) :=
  [("1", ⟨"ann bee", "2020", "t1", "g1"⟩), ("2", ⟨"cad dee", "2021", "t2", "g2"⟩)]

/-- An engine with two registry records and an empty chunk corpus. -/
def engineA : AISearchEngine :=
  { embeddings := [], texts := [], metadata := registryA, chunkMetadata := [] }

/-- Another two-person registry. -/
def registryB : List (String × PersonRecord) :=
  [("1", ⟨"eve fay", "2019", "t1", "g1"⟩), ("2", ⟨"gil hob", "2022", "t2", "g2"⟩)]

/-- A second engine with two registry records and an empty chunk corpus. -/
def engineB : AISearchEngine :=
  { embeddings := [], texts := [], metadata := registryB, chunkMetadata := [] }

/-- An engine with an entirely empty corpus and registry. -/
def engineEmpty : AISearchEngine :=
  { embeddings := [], texts := [], metadata := [], chunkMetadata := [] }

/-- An engine with a single chunk belonging to `document1.pdf`. -/
def engineC : AISearchEngine :=
  { embeddings := [[1]]
    texts := ["chunk one"]
    metadata := [("1", ⟨"ann bee", "2020", "t1", "g1"⟩)]
    chunkMetadata := [⟨"document1.pdf", none, 7⟩] }

/-- A well-formed one-chunk corpus artifact. -/
def artifactC : CorpusArtifact :=
  { embeddings := [[1]], texts := ["chunk one"], metadata := [⟨"document1.pdf", none, 7⟩] }

/-- A registry record. -/
def recordC : PersonRecord := ⟨"ann bee", "2020", "t1", "g1"⟩

/-- `strContainsChars` decides contiguous-substring occurrence. -/
lemma strContainsChars_iff (pat l : List Char) :
    strContainsChars pat l = true ↔ ∃ s t, l = s ++ pat ++ t := by
  induction l with
  | nil =>
    simp only [strContainsChars, List.isEmpty_iff]
    constructor
    · rintro rfl
      exact ⟨[], [], rfl⟩
    · rintro ⟨s, t, h⟩
      rcases List.append_eq_nil.mp h.symm with ⟨h1, h2⟩
      exact (List.append_eq_nil.mp h1).2
  | cons c rest ih =>
    simp only [strContainsChars, Bool.or_eq_true, ih]
    constructor
    · rintro (h | ⟨s, t, rfl⟩)
      · rcases List.isPrefixOf_iff_prefix.mp h with ⟨t, ht⟩
        exact ⟨[], t, by simp [← ht]⟩
      · exact ⟨c :: s, t, rfl⟩
    · rintro ⟨s, t, h⟩
      cases s with
      | nil =>
        left
        rw [List.isPrefixOf_iff_prefix]
        exact ⟨t, by simpa using h.symm⟩
      | cons a s' =>
        right
        refine ⟨s', t, ?_⟩
        rw [List.cons_append, List.cons_append] at h
        injection h

/-- `jsIncludes` decides contiguous-substring occurrence of strings. -/
lemma jsIncludes_iff (s pat : String) :
    jsIncludes s pat = true ↔ ∃ l r, s.data = l ++ pat.data ++ r :=
  strContainsChars_iff pat.data s.data

/-- A single-character search is character membership. -/
lemma jsIncludes_singleton (s : String) (c : Char) :
    jsIncludes s ⟨[c]⟩ = true ↔ c ∈ s.data := by
  rw [jsIncludes_iff]
  constructor
  · rintro ⟨l, r, h⟩
    rw [h]
    simp
  · intro h
    rcases List.append_of_mem h with ⟨l, r, h⟩
    exact ⟨l, r, by simpa using h⟩

/-- The last-4 slice of the history, written as in the source
(`drop (length - 4)`), is the reversed 4-element prefix of the reverse. -/
lemma drop_length_sub_four (l : List ConversationTurn) :
    l.drop (l.length - 4) = (l.reverse.take 4).reverse := by
  rw [List.take_reverse, List.reverse_reverse]

/-! ## C9: the Branch A guard is equivalent to `names.length ≥ 2` -/

/-- The Branch A guard ignores everything but the match count. -/
lemma branchAGuard_eq (c : Bool) (names : List (String × PersonRecord)) :
    branchAGuard c names = decide (2 ≤ names.length) := by
  have h : (1 < names.length) = (2 ≤ names.length) := propext (by omega)
  cases c <;> simp [branchAGuard, h]

/-- C9: the guard `(isComparative || names.length > 1) && names.length >= 2`
of Branch A is logically equivalent to `names.length >= 2` alone, so the
comparative flag has no effect on which branch `findRelevantContext`
executes. -/
theorem branchAGuard_equiv :
    (∀ (c : Bool) (names : List (String × PersonRecord)),
        branchAGuard c names = branchAGuard true names) ∧
    (∀ (c : Bool) (names : List (String × PersonRecord)),
        branchAGuard c names = true ↔ 2 ≤ names.length) :=
  ⟨fun c names => by rw [branchAGuard_eq, branchAGuard_eq],
   fun c names => by rw [branchAGuard_eq]; simp⟩

/-! ## C4: query reformulation -/

/-- C4: history is folded in exactly when the raw question has fewer than 60
characters, or starts with "why"/"how" case-insensitively, or contains no
question-mark character; when triggered the query text is the contents of
the last 4 history turns joined by spaces, a separating space, and the raw
question, and otherwise it is the raw question unchanged. -/
theorem reformulation_spec (question : String) (history : List ConversationTurn) :
    contextualQueryOf question history =
      if question.length < 60 ∨
          jsStartsWith (jsToLower question) "why" = true ∨
          jsStartsWith (jsToLower question) "how" = true ∨
          '?' ∉ question.data then
        joinSep " " (((history.reverse.take 4).reverse).map fun m => m.content)
          ++ " " ++ question
      else question := by
  rw [contextualQueryOf]
  rw [drop_length_sub_four]
  by_cases hc : question.length < 60 ∨
      jsStartsWith (jsToLower question) "why" = true ∨
      jsStartsWith (jsToLower question) "how" = true ∨
      '?' ∉ question.data
  · rw [if_pos hc]
    have hb : (decide (question.length < 60) ||
        jsStartsWith (jsToLower question) "why" ||
        jsStartsWith (jsToLower question) "how" ||
        !jsIncludes question "?") = true := by
      rcases hc with h | h | h | h
      · simp [h]
      · simp [h]
      · simp [h]
      · have hq : jsIncludes question "?" = false := by
          rw [show ("?" : String) = ⟨['?']⟩ from rfl, Bool.eq_false_iff, Ne,
            jsIncludes_singleton]
          exact h
        simp [hq]
    simp only [hb, if_true]
  · rw [if_neg hc]
    push_neg at hc
    obtain ⟨h1, h2, h3, h4⟩ := hc
    have hb : (decide (question.length < 60) ||
        jsStartsWith (jsToLower question) "why" ||
        jsStartsWith (jsToLower question) "how" ||
        !jsIncludes question "?") = false := by
      have h4' : jsIncludes question "?" = true := by
        rw [show ("?" : String) = ⟨['?']⟩ from rfl, jsIncludes_singleton]
        exact h4
      simp [h1, h2, h3, h4']
    simp only [hb, Bool.false_eq_true, if_false]

/-! ## C5: entity resolver -/

/-- `pat` occurs contiguously inside `s` (spec-side notion of "substring"). -/
def isSubstringOf (pat s : String) : Prop :=
  ∃ l r, s.data = l ++ pat.data ++ r

/-- `Char.toLower` is idempotent. -/
lemma charToLower_idem (c : Char) :
    Char.toLower (Char.toLower c) = Char.toLower c := by
  unfold Char.toLower
  by_cases h : c.toNat ≥ 65 ∧ c.toNat ≤ 90
  · rw [if_pos h]
    have hv : (c.toNat + 32).isValidChar := Or.inl (by omega)
    have ht : (Char.ofNat (c.toNat + 32)).toNat = c.toNat + 32 := by
      rw [Char.ofNat, dif_pos hv]
      rfl
    rw [if_neg]
    rw [ht]
    omega
  · rw [if_neg h, if_neg h]

/-- Every character of a `splitOnChar` piece comes from the original list. -/
lemma splitOnChar_chars {c : Char} :
    ∀ {l : List Char} {p : List Char}, p ∈ splitOnChar c l → ∀ x ∈ p, x ∈ l := by
  intro l
  induction l with
  | nil =>
    intro p hp x hx
    simp only [splitOnChar, List.mem_singleton] at hp
    subst hp
    cases hx
  | cons y ys ih =>
    intro p hp x hx
    simp only [splitOnChar] at hp
    by_cases hy : y = c
    · rw [if_pos hy] at hp
      rcases List.mem_cons.mp hp with rfl | hp'
      · cases hx
      · exact List.mem_cons_of_mem _ (ih hp' x hx)
    · rw [if_neg hy] at hp
      rcases hrest : splitOnChar c ys with _ | ⟨r, rs⟩
      · rw [hrest] at hp
        simp only [List.mem_singleton] at hp
        subst hp
        rcases List.mem_singleton.mp hx with rfl
        exact List.mem_cons_self _ _
      · rw [hrest] at hp
        rcases List.mem_cons.mp hp with rfl | hp'
        · rcases List.mem_cons.mp hx with rfl | hx'
          · exact List.mem_cons_self _ _
          · have hr : r ∈ splitOnChar c ys := by rw [hrest]; exact List.mem_cons_self _ _
            exact List.mem_cons_of_mem _ (ih hr x hx')
        · have hp'' : p ∈ splitOnChar c ys := by rw [hrest]; exact List.mem_cons_of_mem _ hp'
          exact List.mem_cons_of_mem _ (ih hp'' x hx)

/-- Tokens of an already-lowercased string are fixed by lowercasing (so the
source's extra `part.toLowerCase()` is the identity there). -/
lemma token_toLower_fixed {s part : String}
    (h : part ∈ jsSplitSpace (jsToLower s)) : jsToLower part = part := by
  rcases List.mem_map.mp h with ⟨p, hp, rfl⟩
  have hchars : ∀ x ∈ p, x ∈ s.data.map Char.toLower := fun x hx =>
    splitOnChar_chars hp x hx
  show String.mk (p.map Char.toLower) = String.mk p
  congr 1
  have : ∀ x ∈ p, Char.toLower x = id x := by
    intro x hx
    rcases List.mem_map.mp (hchars x hx) with ⟨y, _, rfl⟩
    exact charToLower_idem y
  rw [List.map_congr_left this, List.map_id]

/-- C5: for every query text and registry, the entity resolver returns one
match per registry record whose lowercased full name occurs in the lowercased
text or, failing that, one of whose space-separated name tokens of length
greater than 2 occurs in it; matches preserve registry insertion order, each
record appearing at most once (the result is a sublist of the registry), and
an empty match list is an ordinary outcome of the total function. -/
theorem entityResolver_spec (metadata : List (String × PersonRecord)) (text : String) :
    (∀ m, m ∈ findAllNamesInQuestion metadata text ↔
        m ∈ metadata ∧
          (isSubstringOf (jsToLower m.2.name) (jsToLower text) ∨
            ∃ part ∈ jsSplitSpace (jsToLower m.2.name),
              2 < part.length ∧ isSubstringOf part (jsToLower text))) ∧
      (findAllNamesInQuestion metadata text).Sublist metadata := by
  constructor
  · intro m
    rw [findAllNamesInQuestion, List.mem_filter]
    simp only [Bool.or_eq_true, List.any_eq_true, Bool.and_eq_true, decide_eq_true_eq]
    constructor
    · rintro ⟨hm, hfull | ⟨part, hpart, hlen, hinc⟩⟩
      · exact ⟨hm, Or.inl ((jsIncludes_iff _ _).mp hfull)⟩
      · refine ⟨hm, Or.inr ⟨part, hpart, hlen, ?_⟩⟩
        have hfix := token_toLower_fixed hpart
        have := (jsIncludes_iff _ _).mp hinc
        rwa [hfix] at this
    · rintro ⟨hm, hfull | ⟨part, hpart, hlen, hsub⟩⟩
      · exact ⟨hm, Or.inl ((jsIncludes_iff _ _).mpr hfull)⟩
      · refine ⟨hm, Or.inr ⟨part, hpart, hlen, ?_⟩⟩
        rw [jsIncludes_iff, token_toLower_fixed hpart]
        exact hsub
  · exact List.filter_sublist _

/-! ## C6: similarity ranking -/

/-- The descending-score comparator is transitive. -/
lemma descByScore_trans (a b c : SimilarityItem) :
    descByScore a b → descByScore b c → descByScore a c := by
  simp only [descByScore, decide_eq_true_eq]
  exact fun h1 h2 => le_trans h2 h1

/-- The descending-score comparator is total. -/
lemma descByScore_total (a b : SimilarityItem) :
    descByScore a b || descByScore b a := by
  simp only [descByScore, Bool.or_eq_true, decide_eq_true_eq]
  exact le_total b.score a.score

/-- C6: `findSimilarContent` returns at most 5 items; they are drawn only
from the candidate set (restricted to the given source document when one is
given); the result is the 5-truncation of a reordering of the candidates
that is sorted in descending score and in which equal-score items retain
their original corpus order — hence repeated calls return identical
orderings (the function is pure). -/
theorem similarityRanker_spec (sim : List ℚ → List ℚ → ℚ) (e : AISearchEngine)
    (queryEmbedding : List ℚ) (sourceName : Option String) :
    ∃ full : List SimilarityItem,
      findSimilarContent sim e queryEmbedding sourceName = full.take 5 ∧
      (findSimilarContent sim e queryEmbedding sourceName).length ≤ 5 ∧
      full.Perm (restrictedCandidates sim e queryEmbedding sourceName) ∧
      full.Pairwise (fun a b => b.score ≤ a.score) ∧
      (∀ x y : SimilarityItem,
        [x, y].Sublist (restrictedCandidates sim e queryEmbedding sourceName) →
          x.score = y.score → [x, y].Sublist full) ∧
      (∀ x ∈ findSimilarContent sim e queryEmbedding sourceName,
        x ∈ candidateItems sim e queryEmbedding ∧
          ∀ name, sourceName = some name → matchesSource name x = true) := by
  refine ⟨(restrictedCandidates sim e queryEmbedding sourceName).mergeSort descByScore,
    rfl, ?_, ?_, ?_, ?_, ?_⟩
  · exact List.length_take_le _ _
  · exact List.mergeSort_perm _ _
  · have h := List.sorted_mergeSort descByScore_trans descByScore_total
      (restrictedCandidates sim e queryEmbedding sourceName)
    exact h.imp fun hab => by simpa [descByScore] using hab
  · intro x y hsub heq
    exact List.pair_sublist_mergeSort descByScore_trans descByScore_total
      (by simp [descByScore, heq]) hsub
  · intro x hx
    have hfull : x ∈ (restrictedCandidates sim e queryEmbedding sourceName).mergeSort
        descByScore := List.mem_of_mem_take hx
    have hres : x ∈ restrictedCandidates sim e queryEmbedding sourceName :=
      List.mem_mergeSort.mp hfull
    constructor
    · rcases sourceName with _ | name
      · exact hres
      · exact List.mem_of_mem_filter hres
    · rintro name rfl
      exact List.of_mem_filter hres

/-- C6 witness: the ranking theorem instantiated at a concrete engine. -/
theorem similarityRanker_witness :
    ∃ full : List SimilarityItem,
      findSimilarContent simZero engineC (embedZero "q") none = full.take 5 ∧
      (findSimilarContent simZero engineC (embedZero "q") none).length ≤ 5 ∧
      full.Perm (restrictedCandidates simZero engineC (embedZero "q") none) ∧
      full.Pairwise (fun a b => b.score ≤ a.score) ∧
      (∀ x y : SimilarityItem,
        [x, y].Sublist (restrictedCandidates simZero engineC (embedZero "q") none) →
          x.score = y.score → [x, y].Sublist full) ∧
      (∀ x ∈ findSimilarContent simZero engineC (embedZero "q") none,
        x ∈ candidateItems simZero engineC (embedZero "q") ∧
          ∀ name, (none : Option String) = some name → matchesSource name x = true) :=
  similarityRanker_spec simZero engineC (embedZero "q") none

/-! ## Branch-reduction lemmas -/

/-- When the corpus has no embeddings, ranking returns nothing. -/
lemma findSimilarContent_empty (sim : List ℚ → List ℚ → ℚ) (e : AISearchEngine)
    (q : List ℚ) (src : Option String) (h : e.embeddings = []) :
    findSimilarContent sim e q src = [] := by
  have hc : candidateItems sim e q = [] := by simp [candidateItems, h]
  cases src <;> simp [findSimilarContent, restrictedCandidates, hc]

/-- If unrestricted ranking is empty then there are no candidates at all, so
every restricted ranking is empty too. -/
lemma findSimilarContent_restricted_empty (sim : List ℚ → List ℚ → ℚ)
    (e : AISearchEngine) (q : List ℚ)
    (h : findSimilarContent sim e q none = []) (src : Option String) :
    findSimilarContent sim e q src = [] := by
  have hc : candidateItems sim e q = [] := by
    have h' := h
    simp only [findSimilarContent, restrictedCandidates] at h'
    rcases List.take_eq_nil_iff.mp h' with h5 | hms
    · exact absurd h5 (by omega)
    · have := congrArg List.length hms
      simp only [List.length_mergeSort, List.length_nil] at this
      exact List.eq_nil_of_length_eq_zero this
  cases src <;> simp [findSimilarContent, restrictedCandidates, hc]

/-- With at least two matches the source `return`s the Branch A expression. -/
lemma findRelevantContext_branchA (sim : List ℚ → List ℚ → ℚ)
    (embed : String → List ℚ) (e : AISearchEngine) (question : String)
    (history : List ConversationTurn)
    (h : 2 ≤ (findAllNamesInQuestion e.metadata (contextualQueryOf question history)).length) :
    findRelevantContext sim embed e question history =
      some (branchAResult sim embed e (contextualQueryOf question history)
        (findAllNamesInQuestion e.metadata (contextualQueryOf question history))) := by
  have hg : branchAGuard (isComparativeOf (contextualQueryOf question history))
      (findAllNamesInQuestion e.metadata (contextualQueryOf question history)) = true := by
    rw [branchAGuard_eq]
    exact decide_eq_true h
  simp only [findRelevantContext, hg, if_true]

/-- With fewer than two matches and no restricted results, control reaches
the corpus-wide fallback. -/
lemma findRelevantContext_fallback (sim : List ℚ → List ℚ → ℚ)
    (embed : String → List ℚ) (e : AISearchEngine) (question : String)
    (history : List ConversationTurn)
    (hA : (findAllNamesInQuestion e.metadata (contextualQueryOf question history)).length < 2)
    (hB : ∀ nm ∈ findAllNamesInQuestion e.metadata (contextualQueryOf question history),
        findSimilarContent sim e (embed (contextualQueryOf question history))
          (some (documentNameOf nm.1)) = []) :
    findRelevantContext sim embed e question history =
      corpusFallback sim embed e (contextualQueryOf question history) := by
  have hg : branchAGuard (isComparativeOf (contextualQueryOf question history))
      (findAllNamesInQuestion e.metadata (contextualQueryOf question history)) = false := by
    rw [branchAGuard_eq]
    exact decide_eq_false (by omega)
  simp only [findRelevantContext, hg, Bool.false_eq_true, if_false]
  cases hn : (findAllNamesInQuestion e.metadata (contextualQueryOf question history)).head? with
  | none => rfl
  | some nm =>
    have hmem : nm ∈ findAllNamesInQuestion e.metadata (contextualQueryOf question history) :=
      List.mem_of_mem_head? (by rw [hn]; rfl)
    simp [hB nm hmem]

/-- `filterMap` with an if-guard is filter-then-map. -/
lemma filterMap_guard {α β : Type} (p : α → Prop) [DecidablePred p] (g : α → β)
    (l : List α) :
    (l.filterMap fun a => if p a then some (g a) else none) =
      (l.filter fun a => decide (p a)).map g := by
  induction l with
  | nil => rfl
  | cons a t ih => by_cases h : p a <;> simp [h, ih]

/-! ## C1: Branch A has no fall-through -/

/-- C1 counterexample: with two matched registry records and an empty chunk
corpus, both restricted rankings are empty (0 < 2 documents yield results),
yet `findRelevantContext` still returns a Branch A value — the empty string,
the join of zero per-document blocks — instead of falling through (which, on
this corpus, would have produced the `null` marker). -/
theorem branchA_fallthrough_cex :
    (findAllNamesInQuestion engineA.metadata
      (contextualQueryOf "ann bee cad dee" [])).length = 2 ∧
    findSimilarContent simZero engineA (embedZero (contextualQueryOf "ann bee cad dee" []))
      (some "document1.pdf") = [] ∧
    findSimilarContent simZero engineA (embedZero (contextualQueryOf "ann bee cad dee" []))
      (some "document2.pdf") = [] ∧
    findRelevantContext simZero embedZero engineA "ann bee cad dee" [] = some "" := by
  refine ⟨by decide, findSimilarContent_empty _ _ _ _ rfl,
    findSimilarContent_empty _ _ _ _ rfl, ?_⟩
  rw [findRelevantContext_branchA _ _ _ _ _ (by decide)]
  have hempty : ∀ nm : String × PersonRecord,
      findSimilarContent simZero engineA (embedZero (contextualQueryOf "ann bee cad dee" []))
        (some (documentNameOf nm.1)) = [] :=
    fun nm => findSimilarContent_empty _ _ _ _ rfl
  simp [branchAResult, hempty, joinSep]

/-- C1 (amended): when Branch A is entered (at least 2 entity matches), it
returns unconditionally: the joined per-document blocks for exactly those
matched documents whose restricted ranking is non-empty — however few those
are (the empty string when none) — and control never falls through to
Branch B or C. -/
theorem branchA_unconditional (sim : List ℚ → List ℚ → ℚ) (embed : String → List ℚ)
    (e : AISearchEngine) (question : String) (history : List ConversationTurn)
    (h : 2 ≤ (findAllNamesInQuestion e.metadata (contextualQueryOf question history)).length) :
    findRelevantContext sim embed e question history =
      some (joinSep "\n\n---\n\n"
        (((findAllNamesInQuestion e.metadata (contextualQueryOf question history)).filter
            fun nm => decide (0 < (findSimilarContent sim e
              (embed (contextualQueryOf question history))
              (some (documentNameOf nm.1))).length)).map
          fun nm => branchABlock nm.1 nm.2
            (findSimilarContent sim e (embed (contextualQueryOf question history))
              (some (documentNameOf nm.1))))) := by
  rw [findRelevantContext_branchA sim embed e question history h]
  congr 1
  rw [branchAResult]
  rw [filterMap_guard
    (fun nm : String × PersonRecord => 0 < (findSimilarContent sim e
      (embed (contextualQueryOf question history)) (some (documentNameOf nm.1))).length)
    (fun nm : String × PersonRecord => (nm.1, nm.2, findSimilarContent sim e
      (embed (contextualQueryOf question history)) (some (documentNameOf nm.1))))]
  rw [List.map_map]
  rfl

/-- C1 witness: the amended theorem applied at a concrete Branch A input. -/
theorem branchA_unconditional_witness :
    2 ≤ (findAllNamesInQuestion engineA.metadata
      (contextualQueryOf "ann bee cad dee" [])).length ∧
    findRelevantContext simZero embedZero engineA "ann bee cad dee" [] = some "" := by
  refine ⟨by decide, ?_⟩
  rw [branchA_unconditional simZero embedZero engineA "ann bee cad dee" [] (by decide)]
  have hempty : ∀ nm : String × PersonRecord,
      findSimilarContent simZero engineA (embedZero (contextualQueryOf "ann bee cad dee" []))
        (some (documentNameOf nm.1)) = [] :=
    fun nm => findSimilarContent_empty _ _ _ _ rfl
  simp [hempty, joinSep]

/-! ## C2: the no-context marker -/

/-- C2 counterexample: `findRelevantContext` does return the empty string as
a success value (Branch A, two matches, no yielding documents), so the empty
string is not excluded from its range of `some` results. -/
theorem emptyString_return_cex :
    findRelevantContext simZero embedZero engineB "eve fay gil hob" [] = some "" ∧
    (some "" : Option String) ≠ none := by
  refine ⟨?_, by simp⟩
  rw [findRelevantContext_branchA _ _ _ _ _ (by decide)]
  have hempty : ∀ nm : String × PersonRecord,
      findSimilarContent simZero engineB (embedZero (contextualQueryOf "eve fay gil hob" []))
        (some (documentNameOf nm.1)) = [] :=
    fun nm => findSimilarContent_empty _ _ _ _ rfl
  simp [branchAResult, hempty, joinSep]

/-- C2 (amended): when Branch A is not entered (fewer than 2 matches) and no
branch produces any chunks, `findRelevantContext` returns `null` (`none`),
a marker distinguishable from every string; but the "never returns the empty
string" half of the claim fails, because an entered Branch A with no
yielding documents returns the empty string. -/
theorem noContext_marker_spec (sim : List ℚ → List ℚ → ℚ) (embed : String → List ℚ)
    (e : AISearchEngine) (question : String) (history : List ConversationTurn)
    (h1 : (findAllNamesInQuestion e.metadata (contextualQueryOf question history)).length < 2)
    (h2 : findSimilarContent sim e (embed (contextualQueryOf question history)) none = []) :
    findRelevantContext sim embed e question history = none ∧
    ∀ s : String, (none : Option String) ≠ some s := by
  constructor
  · rw [findRelevantContext_fallback sim embed e question history h1
      (fun nm _ => findSimilarContent_restricted_empty _ _ _ h2 _)]
    simp [corpusFallback, h2, groupBySource, firstKeys]
  · intro s
    simp

/-- C2 witness: the amended theorem applied at a concrete no-context input. -/
theorem noContext_marker_witness :
    (findAllNamesInQuestion engineEmpty.metadata
      (contextualQueryOf "hello" [])).length < 2 ∧
    findRelevantContext simZero embedZero engineEmpty "hello" [] = none := by
  refine ⟨by decide, ?_⟩
  exact (noContext_marker_spec simZero embedZero engineEmpty "hello" [] (by decide)
    (findSimilarContent_empty _ _ _ _ rfl)).1

/-! ## C3: corpus loading -/

/-- C3 counterexample: an artifact whose parallel arrays have different
lengths (1 embedding, 0 texts, 0 chunk-metadata entries) loads successfully
— the source performs no length validation. -/
theorem corpusLoad_mismatch_cex :
    initializeEngine (some { embeddings := [[(1 : ℚ)]], texts := [], metadata := [] })
        (some []) =
      .ok { embeddings := [[(1 : ℚ)]], texts := [], chunkMetadata := [], metadata := [] } ∧
    ¬ ([[(1 : ℚ)]].length = ([] : List String).length) :=
  ⟨rfl, by decide⟩

/-- C3 (amended): loading fails exactly when the embeddings artifact or the
metadata table is unreadable or malformed; on success the parallel arrays
are taken as-is (no equal-length validation, so mismatched arrays load
without error) and the registry is keyed by stringified `row_index + 1`. -/
theorem corpusLoad_spec (artifact : Option CorpusArtifact)
    (records : Option (List PersonRecord)) :
    ((∃ eng, initializeEngine artifact records = .ok eng) ↔
      artifact.isSome = true ∧ records.isSome = true) ∧
    (∀ a r, artifact = some a → records = some r →
      initializeEngine artifact records =
        .ok { embeddings := a.embeddings, texts := a.texts, chunkMetadata := a.metadata,
              metadata := r.enum.map fun p => (toString (p.1 + 1), p.2) } ∧
      (r.enum.map fun p => (toString (p.1 + 1), p.2)).map Prod.fst =
        (List.range r.length).map fun i => toString (i + 1)) := by
  constructor
  · cases artifact with
    | none => simp [initializeEngine]
    | some a =>
      cases records with
      | none => simp [initializeEngine]
      | some r => simp [initializeEngine]
  · rintro a r rfl rfl
    refine ⟨rfl, ?_⟩
    rw [List.map_map]
    have : (Prod.fst ∘ fun p : Nat × PersonRecord => (toString (p.1 + 1), p.2)) =
        (fun i => toString (i + 1)) ∘ Prod.fst := rfl
    rw [this, ← List.map_map, List.enum_map_fst]

/-- C3 witness: the amended theorem applied at a concrete load. -/
theorem corpusLoad_spec_witness :
    initializeEngine (some artifactC) (some [recordC]) =
      .ok { embeddings := artifactC.embeddings, texts := artifactC.texts,
            chunkMetadata := artifactC.metadata,
            metadata := [recordC].enum.map fun p => (toString (p.1 + 1), p.2) } :=
  ((corpusLoad_spec (some artifactC) (some [recordC])).2 artifactC [recordC] rfl rfl).1

/-! ## C7: corpus-wide fallback grouping -/

/-- Pairwise self-products are squares. -/
lemma zipWith_mul_self (a : List ℝ) :
    List.zipWith (fun x y => x * y) a a = a.map fun x => x * x := by
  induction a with
  | nil => rfl
  | cons x t ih => simp [ih]

/-- A sum of squares is non-negative. -/
lemma sumSq_nonneg (a : List ℝ) : 0 ≤ (a.map fun x => x * x).sum := by
  refine List.sum_nonneg ?_
  intro x hx
  rcases List.mem_map.mp hx with ⟨y, _, rfl⟩
  exact mul_self_nonneg y

/-- A sum of squares with one non-zero entry is positive. -/
lemma sumSq_pos {a : List ℝ} (h : ∃ x ∈ a, x ≠ 0) :
    0 < (a.map fun x => x * x).sum := by
  induction a with
  | nil =>
    rcases h with ⟨x, hx, _⟩
    cases hx
  | cons y t ih =>
    rcases h with ⟨x, hx, hne⟩
    rcases List.mem_cons.mp hx with rfl | hx'
    · have h1 : 0 < x * x := mul_self_pos.mpr hne
      have h2 := sumSq_nonneg t
      simp only [List.map_cons, List.sum_cons]
      linarith
    · have h1 := ih ⟨x, hx', hne⟩
      have h2 : 0 ≤ y * y := mul_self_nonneg y
      simp only [List.map_cons, List.sum_cons]
      linarith

/-- The sum of squares of the zero vector is zero. -/
lemma sumSq_eq_zero {a : List ℝ} (h : ∀ x ∈ a, x = 0) :
    (a.map fun x => x * x).sum = 0 := by
  induction a with
  | nil => rfl
  | cons y t ih =>
    have hy : y = 0 := h y (List.mem_cons_self _ _)
    have ht := ih fun x hx => h x (List.mem_cons_of_mem _ hx)
    simp [hy, ht]

/-- C8: cosine similarity is symmetric for equal-dimension vectors, and the
self-similarity of any non-zero vector is exactly 1 (the real-number model
of "1 within floating tolerance"). -/
theorem cosineSimilarity_props :
    (∀ a b : List ℝ, a.length = b.length →
        cosineSimilarity a b = cosineSimilarity b a) ∧
    (∀ a : List ℝ, (∃ x ∈ a, x ≠ 0) → cosineSimilarity a a = 1) := by
  constructor
  · intro a b _
    unfold cosineSimilarity dotProduct
    rw [List.zipWith_comm_of_comm _ mul_comm, mul_comm (vecNorm a) (vecNorm b)]
  · intro a h
    unfold cosineSimilarity dotProduct vecNorm
    rw [zipWith_mul_self]
    have hpos := sumSq_pos h
    rw [Real.mul_self_sqrt (le_of_lt hpos)]
    exact div_self (ne_of_gt hpos)

/-- C8 witness: symmetry and self-similarity at concrete vectors. -/
theorem cosineSimilarity_props_witness :
    cosineSimilarity [1, 2] [3, 4] = cosineSimilarity [3, 4] [1, 2] ∧
    cosineSimilarity [1, 0] [1, 0] = 1 :=
  ⟨cosineSimilarity_props.1 [1, 2] [3, 4] rfl,
   cosineSimilarity_props.2 [1, 0] ⟨1, by simp, one_ne_zero⟩⟩

/-- C10: the division in `cosineSimilarity` is unguarded; for non-zero
vectors the denominator `normA * normB` is non-zero and the result satisfies
the defining equation, while a zero vector on either side makes the
denominator zero (the division-by-zero branch of the source). -/
theorem cosineSimilarity_denominator_spec :
    (∀ a b : List ℝ, a.length = b.length → (∃ x ∈ a, x ≠ 0) → (∃ y ∈ b, y ≠ 0) →
        vecNorm a * vecNorm b ≠ 0 ∧
        cosineSimilarity a b * (vecNorm a * vecNorm b) = dotProduct a b) ∧
    (∀ a b : List ℝ, ((∀ x ∈ a, x = 0) ∨ (∀ y ∈ b, y = 0)) →
        vecNorm a * vecNorm b = 0) := by
  constructor
  · intro a b _ ha hb
    have hna : vecNorm a ≠ 0 := by
      unfold vecNorm
      exact ne_of_gt (Real.sqrt_pos.mpr (sumSq_pos ha))
    have hnb : vecNorm b ≠ 0 := by
      unfold vecNorm
      exact ne_of_gt (Real.sqrt_pos.mpr (sumSq_pos hb))
    have hne : vecNorm a * vecNorm b ≠ 0 := mul_ne_zero hna hnb
    refine ⟨hne, ?_⟩
    unfold cosineSimilarity
    exact div_mul_cancel₀ _ hne
  · intro a b h
    rcases h with h | h
    · have hz : vecNorm a = 0 := by
        unfold vecNorm
        rw [sumSq_eq_zero h, Real.sqrt_zero]
      rw [hz, zero_mul]
    · have hz : vecNorm b = 0 := by
        unfold vecNorm
        rw [sumSq_eq_zero h, Real.sqrt_zero]
      rw [hz, mul_zero]

/-- C10 witness: the denominator facts at concrete vectors. -/
theorem cosineSimilarity_denominator_witness :
    (vecNorm [1] * vecNorm [2] ≠ 0 ∧
      cosineSimilarity [1] [2] * (vecNorm [1] * vecNorm [2]) = dotProduct [1] [2]) ∧
    vecNorm [(0 : ℝ)] * vecNorm [1] = 0 :=
  ⟨cosineSimilarity_denominator_spec.1 [1] [2] rfl ⟨1, by simp, one_ne_zero⟩
      ⟨2, by simp, two_ne_zero⟩,
   cosineSimilarity_denominator_spec.2 [0] [1] (Or.inl (by simp))⟩

end ChatbotRetrieval
